import Mathlib

/-!
# Verification of the diagnosis engine of `sistema-diagnostico-medico`

This file embeds the matching/scoring core of the repository
(`src/engine.py`, the cache of `src/data_manager.py`, and the data model of
`src/models.py`) as executable Lean definitions and proves the frozen claims
about it.

Modelling conventions:
* Python `float` weights, scores and percentages are modelled as rationals
  (`ℚ`); every numeric value appearing in the claims is exactly representable.
* Python's `round(x, n)` (round-half-to-even on the scaled value) is modelled
  by `rhe`, round-half-to-even on `ℚ`.
* Python `dict`s are modelled as insertion-ordered association lists
  (`dictSet` keeps the position of an existing key and appends new keys at the
  end, exactly like CPython dicts).
* Exceptions (`KeyError` from `sintoma["s"]`, `ValueError`/`TypeError` from
  `float(...)`) are modelled with `Except PyErr`.
* `hashlib.md5(...).hexdigest()` is implemented in full (`md5Hex`) over the
  UTF-8 bytes of the input string.
-/

/-! ## Python rounding: `round(x, 1)` / `round(x, 2)` -/

/-- Round-half-to-even of a rational to an integer, the rounding rule of
Python's builtin `round`. -/
def rhe (q : ℚ) : ℤ :=
  if q - (⌊q⌋ : ℚ) < 1/2 then ⌊q⌋
  else if 1/2 < q - (⌊q⌋ : ℚ) then ⌊q⌋ + 1
  else if ⌊q⌋ % 2 = 0 then ⌊q⌋ else ⌊q⌋ + 1

/-- Python `round(x, 1)`. -/
def pyRound1 (q : ℚ) : ℚ := (rhe (q * 10) : ℚ) / 10

/-- Python `round(x, 2)`. -/
def pyRound2 (q : ℚ) : ℚ := (rhe (q * 100) : ℚ) / 100

/-! ## Python string comparison and `sorted` -/

/-- Lexicographic comparison of char lists by code point, the order Python
uses on `str`. -/
def lexLe : List Char → List Char → Bool
  | [], _ => true
  | _ :: _, [] => false
  | a :: as, b :: bs => if a < b then true else if b < a then false else lexLe as bs

/-- The `≤` relation Python's `sorted` uses on strings. -/
def pyStrLe (s t : String) : Prop := lexLe s.data t.data = true

instance : DecidableRel pyStrLe := fun s t =>
  inferInstanceAs (Decidable (lexLe s.data t.data = true))

/-- Python `sorted` on a list of strings (the sorted permutation under
`pyStrLe`; for a linear order the result is the unique sorted permutation,
so any stable sort realizes it). -/
def pySorted (l : List String) : List String := List.insertionSort pyStrLe l

/-- Python `','.join`. -/
def joinComma : List String → List Char
  | [] => []
  | [s] => s.data
  | s :: rest => s.data ++ ',' :: joinComma rest

/-! ## UTF-8 encoding (`str.encode()`) -/

/-- UTF-8 bytes of one character. -/
def utf8Bytes (c : Char) : List ℕ :=
  let n := c.toNat
  if n < 128 then [n]
  else if n < 2048 then [192 + (n >>> 6), 128 + (n &&& 63)]
  else if n < 65536 then
    [224 + (n >>> 12), 128 + ((n >>> 6) &&& 63), 128 + (n &&& 63)]
  else
    [240 + (n >>> 18), 128 + ((n >>> 12) &&& 63), 128 + ((n >>> 6) &&& 63),
      128 + (n &&& 63)]

/-- UTF-8 bytes of a char list. -/
def utf8Enc (l : List Char) : List ℕ := (l.map utf8Bytes).flatten

/-! ## MD5 (`hashlib.md5(...).hexdigest()`) -/

/-- Truncation to 32 bits. -/
def w32 (n : ℕ) : ℕ := n % 4294967296

/-- 32-bit left rotation (argument assumed `< 2^32`). -/
def rotl32 (x s : ℕ) : ℕ := w32 ((x <<< s) ||| (x >>> (32 - s)))

/-- MD5 round function F. -/
def mdF (b c d : ℕ) : ℕ := (b &&& c) ||| ((b ^^^ 4294967295) &&& d)

/-- MD5 round function G. -/
def mdG (b c d : ℕ) : ℕ := (d &&& b) ||| ((d ^^^ 4294967295) &&& c)

/-- MD5 round function H. -/
def mdH (b c d : ℕ) : ℕ := b ^^^ c ^^^ d

/-- MD5 round function I. -/
def mdI (b c d : ℕ) : ℕ := c ^^^ (b ||| (d ^^^ 4294967295))

/-- The MD5 sine-derived constant table `K`. -/
def md5K : List ℕ :=
  [3614090360, 3905402710, 606105819, 3250441966, 4118548399, 1200080426,
   2821735955, 4249261313, 1770035416, 2336552879, 4294925233, 2304563134,
   1804603682, 4254626195, 2792965006, 1236535329, 4129170786, 3225465664,
   643717713, 3921069994, 3593408605, 38016083, 3634488961, 3889429448,
   568446438, 3275163606, 4107603335, 1163531501, 2850285829, 4243563512,
   1735328473, 2368359562, 4294588738, 2272392833, 1839030562, 4259657740,
   2763975236, 1272893353, 4139469664, 3200236656, 681279174, 3936430074,
   3572445317, 76029189, 3654602809, 3873151461, 530742520, 3299628645,
   4096336452, 1126891415, 2878612391, 4237533241, 1700485571, 2399980690,
   4293915773, 2240044497, 1873313359, 4264355552, 2734768916, 1309151649,
   4149444226, 3174756917, 718787259, 3951481745]

/-- The MD5 per-round shift table `s`. -/
def md5S : List ℕ :=
  [7, 12, 17, 22, 7, 12, 17, 22, 7, 12, 17, 22, 7, 12, 17, 22,
   5, 9, 14, 20, 5, 9, 14, 20, 5, 9, 14, 20, 5, 9, 14, 20,
   4, 11, 16, 23, 4, 11, 16, 23, 4, 11, 16, 23, 4, 11, 16, 23,
   6, 10, 15, 21, 6, 10, 15, 21, 6, 10, 15, 21, 6, 10, 15, 21]

/-- Little-endian 32-bit word from (at most) four bytes. -/
def bytesToWordLE (l : List ℕ) : ℕ :=
  (l.take 4).foldr (fun b acc => b + 256 * acc) 0

/-- One of the 64 MD5 rounds on the state `(a, b, c, d)`. -/
def md5Round (M : List ℕ) (st : ℕ × ℕ × ℕ × ℕ) (i : ℕ) : ℕ × ℕ × ℕ × ℕ :=
  let (a, b, c, d) := st
  let f :=
    if i < 16 then mdF b c d
    else if i < 32 then mdG b c d
    else if i < 48 then mdH b c d
    else mdI b c d
  let g :=
    if i < 16 then i
    else if i < 32 then (5 * i + 1) % 16
    else if i < 48 then (3 * i + 5) % 16
    else (7 * i) % 16
  let f2 := w32 (f + a + md5K.getD i 0 + M.getD g 0)
  (d, w32 (b + rotl32 f2 (md5S.getD i 0)), b, c)

/-- Process one 64-byte chunk. -/
def md5Chunk (st : ℕ × ℕ × ℕ × ℕ) (chunk : List ℕ) : ℕ × ℕ × ℕ × ℕ :=
  let M := (List.range 16).map fun j => bytesToWordLE (chunk.drop (4 * j))
  let r := (List.range 64).foldl (md5Round M) st
  (w32 (st.1 + r.1), w32 (st.2.1 + r.2.1), w32 (st.2.2.1 + r.2.2.1),
    w32 (st.2.2.2 + r.2.2.2))

/-- MD5 padding: a `0x80` byte, zeros to 56 mod 64, then the bit length as a
64-bit little-endian number. -/
def md5Pad (msg : List ℕ) : List ℕ :=
  let L := msg.length
  let zeros := (120 - (L + 1) % 64) % 64
  let bitLen := (8 * L) % 18446744073709551616
  msg ++ 128 :: List.replicate zeros 0
    ++ (List.range 8).map fun j => (bitLen >>> (8 * j)) % 256

/-- Split a byte list into 64-byte chunks (structural recursion on a fuel
bound so the kernel can evaluate it). -/
def chunksOf64Aux : ℕ → List ℕ → List (List ℕ)
  | 0, _ => []
  | _, [] => []
  | fuel + 1, a :: t => (a :: t).take 64 :: chunksOf64Aux fuel ((a :: t).drop 64)

/-- Split a byte list into 64-byte chunks. -/
def chunksOf64 (l : List ℕ) : List (List ℕ) := chunksOf64Aux l.length l

/-- The MD5 state after absorbing a whole (unpadded) message. -/
def md5Sum (msg : List ℕ) : ℕ × ℕ × ℕ × ℕ :=
  (chunksOf64 (md5Pad msg)).foldl md5Chunk
    (1732584193, 4023233417, 2562383102, 271733878)

/-- A hex digit character. -/
def hexDigitChar (n : ℕ) : Char :=
  if n < 10 then Char.ofNat (48 + n) else Char.ofNat (87 + n)

/-- Two hex characters of one byte. -/
def byteHex (b : ℕ) : List Char := [hexDigitChar (b / 16), hexDigitChar (b % 16)]

/-- Hex rendering of a 32-bit word, least-significant byte first. -/
def wordHexLE (w : ℕ) : List Char :=
  ((List.range 4).map fun j => byteHex ((w >>> (8 * j)) % 256)).flatten

/-- `hashlib.md5(msg).hexdigest()`. -/
def md5Hex (msg : List ℕ) : String :=
  let r := md5Sum msg
  String.mk (wordHexLE r.1 ++ wordHexLE r.2.1 ++ wordHexLE r.2.2.1
    ++ wordHexLE r.2.2.2)

/-! ## Python exceptions and the catalog data model (`models.py`) -/

/-- Exceptions the engine code can raise: `KeyError` from `sintoma["s"]`,
and the `ValueError`/`TypeError` of a failing `float(...)` coercion. -/
inductive PyErr where
  | keyError (key : String)
  | coercionError
deriving DecidableEq

/-- The value stored under a symptom dict's `"peso"` key: either a value on
which Python's `float(...)` succeeds (modelled by the rational it returns),
or one on which it raises. -/
inductive Peso where
  | num (q : ℚ)
  | nonNumeric
deriving DecidableEq

/-- One element of `Doenca.sintomas`: either a dict (whose `"s"` key may be
absent and whose `"peso"` key may be absent or non-coercible), or a non-dict
value, kept as the string `str(...)` renders it to. -/
inductive SintomaEntry where
  | dict (s : Option String) (peso : Option Peso)
  | raw (v : String)
deriving DecidableEq

/-- `Doenca.condicoes` after `DataManager._normalizar_doenca` defaults:
`sintomas_obrigatorios` and `min_sintomas`. -/
structure Condicoes where
  sintomas_obrigatorios : List String := []
  min_sintomas : ℕ := 0
deriving DecidableEq

/-- The `Doenca` dataclass of `models.py`. -/
structure Doenca where
  nome : String := ""
  tipo : String := "físico"
  categoria : String := "fisica"
  descricao : String := ""
  tratamento : String := ""
  severidade : String := "moderada"
  sintomas : List SintomaEntry := []
  condicoes : Condicoes := {}
deriving DecidableEq

/-- The state `ResultadoDiagnostico._calcular` computes. -/
structure Resultado where
  sintomas_correspondentes : List String
  sintomas_faltantes : List String
  pontuacao_bruta : ℚ
  pontuacao_maxima : ℚ
  porcentagem : ℚ
deriving DecidableEq

/-- The dictionary `ResultadoDiagnostico.to_dict` returns. -/
structure ResultDict where
  doenca : String
  tipo : String
  categoria : String
  descricao : String
  tratamento : String
  severidade : String
  porcentagem : ℚ
  sintomas_correspondentes : List String
  sintomas_faltantes : List String
  pontuacao_bruta : ℚ
  pontuacao_maxima : ℚ
deriving DecidableEq

/-- The numeric entries of the `CONFIG` dict (`config.py`) the core reads. -/
structure CONFIGt where
  limiteResultados : ℕ
  porcentagemMinima : ℚ
  cacheTTL : ℚ
  cacheMaxSize : ℕ

/-- `config.py`: `LIMITE_RESULTADOS = 50`, `PORCENTAGEM_MINIMA = 5.0`,
`CACHE_TTL = 300`, `CACHE_MAX_SIZE = 1000`. -/
def CONFIG : CONFIGt := ⟨50, 5, 300, 1000⟩

/-! ## CPython dict primitives (insertion-ordered association lists) -/

/-- `d[k] = v`: update in place if the key exists, else append at the end. -/
def dictSet {β : Type} (k : String) (v : β) :
    List (String × β) → List (String × β)
  | [] => [(k, v)]
  | (k', v') :: t => if k' = k then (k', v) :: t else (k', v') :: dictSet k v t

/-- `d.get(k)` / `k in d`. -/
def dictLookup {β : Type} (k : String) : List (String × β) → Option β
  | [] => none
  | (k', v) :: t => if k' = k then some v else dictLookup k t

/-- `del d[k]` (no-op when the key is absent; the source only deletes
present keys). -/
def dictErase {β : Type} (k : String) : List (String × β) → List (String × β)
  | [] => []
  | (k', v) :: t => if k' = k then t else (k', v) :: dictErase k t

/-! ## The scorer (`engine.py`, `ResultadoDiagnostico`) -/

/-- `engine.py` 31-36: the name and weight of one symptom entry.
`nome = sintoma["s"]` raises `KeyError` when the key is absent;
`float(sintoma.get("peso", 1.0))` raises when the value is non-coercible;
a non-dict entry contributes `str(sintoma)` with weight `1.0`. -/
def entryNomePeso : SintomaEntry → Except PyErr (String × ℚ)
  | .dict none _ => .error (.keyError "s")
  | .dict (some n) none => .ok (n, 1)
  | .dict (some n) (some (.num q)) => .ok (n, q)
  | .dict (some _) (some .nonNumeric) => .error .coercionError
  | .raw v => .ok (v, 1)

/-- `engine.py` 29-38: the loop building `sintomas_doenca` (a dict, so a
repeated name keeps its first position and takes the last weight) while
accumulating every entry's weight into `pontuacao_maxima`. -/
def extrairSintomas (acc : List (String × ℚ)) (maxima : ℚ) :
    List SintomaEntry → Except PyErr (List (String × ℚ) × ℚ)
  | [] => .ok (acc, maxima)
  | e :: rest => do
      let np ← entryNomePeso e
      extrairSintomas (dictSet np.1 np.2 acc) (maxima + np.2) rest

/-- `engine.py` 41-46: one pass over `sintomas_doenca.items()` producing
`(pontuacao_bruta, sintomas_correspondentes, sintomas_faltantes)`. -/
def separar (sel : List String) : List (String × ℚ) → ℚ × List String × List String
  | [] => (0, [], [])
  | (n, p) :: t =>
      let r := separar sel t
      if n ∈ sel then (p + r.1, n :: r.2.1, r.2.2)
      else (r.1, r.2.1, n :: r.2.2)

/-- `ResultadoDiagnostico._calcular` (`engine.py` 26-50). -/
def calcular (d : Doenca) (sel : List String) : Except PyErr Resultado := do
  let sm ← extrairSintomas [] 0 d.sintomas
  let parts := separar sel sm.1
  let porc := if 0 < sm.2 then pyRound1 (parts.1 / sm.2 * 100) else 0
  .ok { sintomas_correspondentes := parts.2.1
        sintomas_faltantes := parts.2.2
        pontuacao_bruta := parts.1
        pontuacao_maxima := sm.2
        porcentagem := porc }

/-- `ResultadoDiagnostico.to_dict` (`engine.py` 52-66). -/
def to_dict (d : Doenca) (r : Resultado) : ResultDict :=
  { doenca := d.nome
    tipo := d.tipo
    categoria := d.categoria
    descricao := d.descricao
    tratamento := d.tratamento
    severidade := d.severidade
    porcentagem := r.porcentagem
    sintomas_correspondentes := r.sintomas_correspondentes
    sintomas_faltantes := r.sintomas_faltantes
    pontuacao_bruta := pyRound2 r.pontuacao_bruta
    pontuacao_maxima := pyRound2 r.pontuacao_maxima }

/-! ## The eligibility filter and the engine (`engine.py`, `DiagnosticoEngine`) -/

/-- The name a symptom entry contributes inside `_verificar_condicoes`
(`s["s"] if isinstance(s, dict) else str(s)`). -/
def nomeDe : SintomaEntry → Except PyErr String
  | .dict none _ => .error (.keyError "s")
  | .dict (some n) _ => .ok n
  | .raw v => .ok v

/-- The list comprehension `engine.py` 125-128. -/
def listaNomes : List SintomaEntry → Except PyErr (List String)
  | [] => .ok []
  | e :: rest => do
      let n ← nomeDe e
      let ns ← listaNomes rest
      .ok (n :: ns)

/-- `DiagnosticoEngine._verificar_condicoes` (`engine.py` 111-134). -/
def verificar_condicoes (d : Doenca) (sintomas : List String) :
    Except PyErr Bool :=
  if d.condicoes.sintomas_obrigatorios.any (fun o => decide (o ∉ sintomas)) then
    .ok false
  else if 0 < d.condicoes.min_sintomas then do
    let nomes ← listaNomes d.sintomas
    let comuns := nomes.filter (fun s => decide (s ∈ sintomas))
    .ok (decide (d.condicoes.min_sintomas ≤ comuns.length))
  else .ok true

/-- `DiagnosticoEngine._gerar_cache_key` (`engine.py` 136-140):
`hashlib.md5(','.join(sorted(sintomas)).encode()).hexdigest()`. -/
def gerar_cache_key (sintomas : List String) : String :=
  md5Hex (utf8Enc (joinComma (pySorted sintomas)))

/-- The descending comparison `avaliar` sorts with
(`key=lambda x: x["porcentagem"], reverse=True`). -/
def rdesc (a b : ResultDict) : Prop := b.porcentagem ≤ a.porcentagem

instance : DecidableRel rdesc := fun a b =>
  inferInstanceAs (Decidable (b.porcentagem ≤ a.porcentagem))

/-- The catalog loop of `avaliar` (`engine.py` 86-98): filter by
`_verificar_condicoes`, score, keep when `porcentagem >= PORCENTAGEM_MINIMA`. -/
def coletar (cfg : CONFIGt) (db : List Doenca) (sintomas : List String) :
    Except PyErr (List ResultDict) :=
  match db with
  | [] => .ok []
  | d :: rest => do
      let elig ← verificar_condicoes d sintomas
      if elig then
        let r ← calcular d sintomas
        let rs ← coletar cfg rest sintomas
        if cfg.porcentagemMinima ≤ r.porcentagem then .ok (to_dict d r :: rs)
        else .ok rs
      else coletar cfg rest sintomas

/-- The engine's result cache `self.cache` (`engine.py` 73): a plain dict
from cache key to result list. -/
abbrev EngineCache := List (String × List ResultDict)

/-- `DiagnosticoEngine.avaliar` (`engine.py` 76-109), with the `CONFIG`
values, the catalog `self.db.doencas`, and the cache passed explicitly. -/
def avaliar (cfg : CONFIGt) (db : List Doenca) (cache : EngineCache)
    (sintomas : List String) : Except PyErr (List ResultDict × EngineCache) :=
  if sintomas = [] then .ok ([], cache)
  else
    let cacheKey := gerar_cache_key sintomas
    match dictLookup cacheKey cache with
    | some rs => .ok (rs, cache)
    | none => do
        let rs ← coletar cfg db sintomas
        let ordenados := List.insertionSort rdesc rs
        let finais := ordenados.take cfg.limiteResultados
        .ok (finais, dictSet cacheKey finais cache)

/-! ## The `DataManager` file-content cache (`data_manager.py`) -/

/-- The `CacheEntry` dataclass of `data_manager.py`. -/
structure CacheEntry (α : Type) where
  data : α
  timestamp : ℚ
  hits : ℕ
deriving DecidableEq

/-- `DataManager._get_from_cache` (`data_manager.py` 204-218): on a fresh
entry increment `hits` and return the data; on an expired entry delete it. -/
def get_from_cache {α : Type} (ttl : ℚ) (k : String) (now : ℚ)
    (cache : List (String × CacheEntry α)) :
    Option α × List (String × CacheEntry α) :=
  match dictLookup k cache with
  | none => (none, cache)
  | some e =>
      if now - e.timestamp < ttl then
        (some e.data, dictSet k { e with hits := e.hits + 1 } cache)
      else (none, dictErase k cache)

/-- Python's `min(self.cache.keys(), key=lambda k: self.cache[k].hits)`:
the first entry (in dict iteration = insertion order) with minimal `hits`. -/
def minHitsEntry {α : Type} :
    List (String × CacheEntry α) → Option (String × CacheEntry α)
  | [] => none
  | x :: t =>
      match minHitsEntry t with
      | none => some x
      | some y => if y.2.hits < x.2.hits then some y else some x

/-- `DataManager._save_to_cache` (`data_manager.py` 220-236): evict the
lowest-hits entry when at capacity, then insert with `hits = 1`. (With
`maxSize = 0` and an empty cache CPython's `min([])` would raise; that
unreachable-for-positive-capacity branch is modelled as a direct insert.) -/
def save_to_cache {α : Type} (maxSize : ℕ) (k : String) (d : α) (now : ℚ)
    (cache : List (String × CacheEntry α)) : List (String × CacheEntry α) :=
  dictSet k ⟨d, now, 1⟩
    (if maxSize ≤ cache.length then
      match minHitsEntry cache with
      | some y => dictErase y.1 cache
      | none => cache
    else cache)

/-! ## Total counterparts on well-formed catalog records

A condition record is well formed when every symptom entry has a name and a
coercible weight — exactly the shape `models.py` documents
(`Lista de {s: nome, peso: float}`). On well-formed records the `Except`
computations above never raise, and equal the total functions below. -/

/-- A symptom entry that scores without raising. -/
def entryWF : SintomaEntry → Bool
  | .dict none _ => false
  | .dict (some _) (some .nonNumeric) => false
  | _ => true

/-- A condition whose symptom entries are all well formed. -/
def DoencaWF (d : Doenca) : Bool := d.sintomas.all entryWF

/-- Total name/weight of a (well-formed) entry. -/
def entryNP : SintomaEntry → String × ℚ
  | .dict (some n) (some (.num q)) => (n, q)
  | .dict (some n) _ => (n, 1)
  | .dict none _ => ("", 1)
  | .raw v => (v, 1)

/-- The symptom names of a condition's entries, in order. -/
def nomesT (l : List SintomaEntry) : List String := l.map fun e => (entryNP e).1

/-- Total version of `extrairSintomas`. -/
def extrairT (acc : List (String × ℚ)) (m : ℚ) :
    List SintomaEntry → List (String × ℚ) × ℚ
  | [] => (acc, m)
  | e :: rest =>
      extrairT (dictSet (entryNP e).1 (entryNP e).2 acc) (m + (entryNP e).2) rest

/-- Total version of `calcular`. -/
def calcularT (d : Doenca) (sel : List String) : Resultado :=
  let sm := extrairT [] 0 d.sintomas
  let parts := separar sel sm.1
  { sintomas_correspondentes := parts.2.1
    sintomas_faltantes := parts.2.2
    pontuacao_bruta := parts.1
    pontuacao_maxima := sm.2
    porcentagem := if 0 < sm.2 then pyRound1 (parts.1 / sm.2 * 100) else 0 }

/-- Total version of `verificar_condicoes`. -/
def verificarT (d : Doenca) (sintomas : List String) : Bool :=
  if d.condicoes.sintomas_obrigatorios.any (fun o => decide (o ∉ sintomas)) then
    false
  else if 0 < d.condicoes.min_sintomas then
    d.condicoes.min_sintomas ≤
      ((nomesT d.sintomas).filter (fun s => decide (s ∈ sintomas))).length
  else true

/-- What the catalog loop keeps of one condition. -/
def keepD (cfg : CONFIGt) (sintomas : List String) (d : Doenca) :
    Option ResultDict :=
  if verificarT d sintomas ∧ cfg.porcentagemMinima ≤ (calcularT d sintomas).porcentagem
  then some (to_dict d (calcularT d sintomas)) else none

/-- Total version of `coletar`: the kept results in catalog order. -/
def coletarT (cfg : CONFIGt) (db : List Doenca) (sintomas : List String) :
    List ResultDict := db.filterMap (keepD cfg sintomas)

/-! ## The engine cache accepts unboundedly many distinct keys -/

/-- The string of `n` letters `a` (cache keys for the unboundedness
counterexample). -/
def aKey (n : ℕ) : String := String.mk (List.replicate n 'a')

/-- The engine cache after storing results under `aKey 0, …, aKey (n-1)`,
each by the engine's own store operation `self.cache[key] = resultados`. -/
def buildCache : ℕ → EngineCache
  | 0 => []
  | n + 1 => dictSet (aKey n) [] (buildCache n)


/-! ## Spec-side score expressions and concrete catalog records

`maxScoreSpec` and `rawScoreSpec` transcribe the specification sentence for
the Match Scorer literally — sums over the condition's symptom *entries* —
to be compared against what `calcular` computes. -/

/-- The spec's `max_score`: the sum of the weights of the condition's
symptom entries. -/
def maxScoreSpec (d : Doenca) : ℚ :=
  (d.sintomas.map fun e => (entryNP e).2).sum

/-- The spec's `raw_score`: the sum of the weights of those symptom entries
whose name is a member of the query. -/
def rawScoreSpec (d : Doenca) (q : List String) : ℚ :=
  (((d.sintomas.map entryNP).filter fun kv => decide (kv.1 ∈ q)).map Prod.snd).sum

/-- The `Flu` condition of the spec's concrete scenario 1:
`{fever: 1.0, cough: 1.0, fatigue: 0.5}`, no eligibility rules. -/
def fluDoenca : Doenca :=
  { nome := "Flu"
    sintomas := [.dict (some "fever") (some (.num 1)),
      .dict (some "cough") (some (.num 1)),
      .dict (some "fatigue") (some (.num (1/2)))] }

/-- A condition listing the same symptom name twice with different weights. -/
def dupDoenca : Doenca :=
  { nome := "Dup"
    sintomas := [.dict (some "a") (some (.num 1)),
      .dict (some "a") (some (.num 2))] }

/-- A malformed condition record: its single symptom dict has no `"s"` key. -/
def badDoenca : Doenca :=
  { nome := "Bad", sintomas := [.dict none (some (.num 1))] }

/-- The `Rare` condition of the spec's concrete scenario 2: one symptom
`a`, eligibility `required_symptoms = {b}`. -/
def rareDoenca : Doenca :=
  { nome := "Rare"
    sintomas := [.dict (some "a") (some (.num 1))]
    condicoes := { sintomas_obrigatorios := ["b"] } }

/-- A one-entry DataManager cache state (data `5`, stored at time `0`,
`hits = 3`) used to witness the cache-invariant theorem. -/
def dmCache0 : List (String × CacheEntry ℕ) := [("k0", ⟨5, 0, 3⟩)]

/-- The score of `Flu` against `["fever", "cough"]`. -/
def recFlu80 : Resultado :=
  { sintomas_correspondentes := ["fever", "cough"],
    sintomas_faltantes := ["fatigue"], pontuacao_bruta := 2,
    pontuacao_maxima := 5/2, porcentagem := 80 }

/-- The score of `Flu` against `["fever", "cough", "fatigue"]`. -/
def recFlu100 : Resultado :=
  { sintomas_correspondentes := ["fever", "cough", "fatigue"],
    sintomas_faltantes := [], pontuacao_bruta := 5/2,
    pontuacao_maxima := 5/2, porcentagem := 100 }

/-- The score of `Flu` against `["cough"]`. -/
def recFlu40 : Resultado :=
  { sintomas_correspondentes := ["cough"],
    sintomas_faltantes := ["fever", "fatigue"], pontuacao_bruta := 1,
    pontuacao_maxima := 5/2, porcentagem := 40 }

/-- A condition matching exactly the symptom `a`, with no eligibility
rules. -/
def aDoenca : Doenca :=
  { nome := "A", sintomas := [.dict (some "a") (some (.num 1))] }

/-- The output dictionary of `aDoenca` scored against `["a"]`. -/
def resA : ResultDict :=
  { doenca := "A", tipo := "físico", categoria := "fisica", descricao := "",
    tratamento := "", severidade := "moderada", porcentagem := 100,
    sintomas_correspondentes := ["a"], sintomas_faltantes := [],
    pontuacao_bruta := 1, pontuacao_maxima := 1 }

/-! ## Lemmas about the rounding function -/

theorem rhe_floor_le (q : ℚ) : ⌊q⌋ ≤ rhe q := by
  unfold rhe; split_ifs <;> omega

theorem rhe_le_floor_add_one (q : ℚ) : rhe q ≤ ⌊q⌋ + 1 := by
  unfold rhe; split_ifs <;> omega

theorem rhe_mono {p q : ℚ} (h : p ≤ q) : rhe p ≤ rhe q := by
  rcases lt_or_eq_of_le (Int.floor_le_floor h) with hf | hf
  · calc rhe p ≤ ⌊p⌋ + 1 := rhe_le_floor_add_one p
      _ ≤ ⌊q⌋ := by omega
      _ ≤ rhe q := rhe_floor_le q
  · unfold rhe
    rw [hf]
    split_ifs <;> first | omega | (exfalso; linarith)

theorem pyRound1_mono {p q : ℚ} (h : p ≤ q) : pyRound1 p ≤ pyRound1 q := by
  unfold pyRound1
  have h1 : rhe (p * 10) ≤ rhe (q * 10) := rhe_mono (by linarith)
  have h2 : ((rhe (p * 10) : ℚ)) ≤ (rhe (q * 10) : ℚ) := by exact_mod_cast h1
  linarith

/-! ## `pyStrLe` is a total preorder with antisymmetry -/

theorem lexLe_cons {x y : Char} {xs ys : List Char} :
    lexLe (x :: xs) (y :: ys) = true ↔
      x < y ∨ (¬ x < y ∧ ¬ y < x ∧ lexLe xs ys = true) := by
  by_cases h1 : x < y
  · simp [lexLe, h1]
  · by_cases h2 : y < x <;> simp [lexLe, h1, h2]

theorem lexLe_total (a b : List Char) : lexLe a b = true ∨ lexLe b a = true := by
  induction a generalizing b with
  | nil => left; rfl
  | cons x xs ih =>
    cases b with
    | nil => right; rfl
    | cons y ys =>
      by_cases h1 : x < y
      · left; exact lexLe_cons.mpr (Or.inl h1)
      · by_cases h2 : y < x
        · right; exact lexLe_cons.mpr (Or.inl h2)
        · rcases ih ys with h | h
          · left; exact lexLe_cons.mpr (Or.inr ⟨h1, h2, h⟩)
          · right; exact lexLe_cons.mpr (Or.inr ⟨h2, h1, h⟩)

theorem lexLe_trans {a b c : List Char} (h1 : lexLe a b = true)
    (h2 : lexLe b c = true) : lexLe a c = true := by
  induction a generalizing b c with
  | nil => rfl
  | cons x xs ih =>
    cases b with
    | nil => simp [lexLe] at h1
    | cons y ys =>
      cases c with
      | nil => simp [lexLe] at h2
      | cons z zs =>
        rcases lexLe_cons.mp h1 with hxy | ⟨hxy1, hxy2, hrec1⟩ <;>
          rcases lexLe_cons.mp h2 with hyz | ⟨hyz1, hyz2, hrec2⟩
        · exact lexLe_cons.mpr (Or.inl (lt_trans hxy hyz))
        · have : y = z := le_antisymm (not_lt.mp hyz2) (not_lt.mp hyz1)
          exact lexLe_cons.mpr (Or.inl (this ▸ hxy))
        · have : x = y := le_antisymm (not_lt.mp hxy2) (not_lt.mp hxy1)
          exact lexLe_cons.mpr (Or.inl (this ▸ hyz))
        · have hxy : x = y := le_antisymm (not_lt.mp hxy2) (not_lt.mp hxy1)
          have hyz : y = z := le_antisymm (not_lt.mp hyz2) (not_lt.mp hyz1)
          subst hxy; subst hyz
          exact lexLe_cons.mpr (Or.inr ⟨hxy1, hxy2, ih hrec1 hrec2⟩)

theorem lexLe_antisymm {a b : List Char} (h1 : lexLe a b = true)
    (h2 : lexLe b a = true) : a = b := by
  induction a generalizing b with
  | nil => cases b with
    | nil => rfl
    | cons y ys => simp [lexLe] at h2
  | cons x xs ih =>
    cases b with
    | nil => simp [lexLe] at h1
    | cons y ys =>
      rcases lexLe_cons.mp h1 with hxy | ⟨hxy1, hxy2, hrec1⟩
      · rcases lexLe_cons.mp h2 with hyx | ⟨_, hyx2, _⟩
        · exact absurd hyx (lt_asymm hxy)
        · exact absurd hxy hyx2
      · rcases lexLe_cons.mp h2 with hyx | ⟨_, _, hrec2⟩
        · exact absurd hyx hxy2
        · have : x = y := le_antisymm (not_lt.mp hxy2) (not_lt.mp hxy1)
          rw [this, ih hrec1 hrec2]

instance : IsTotal String pyStrLe := ⟨fun s t => lexLe_total s.data t.data⟩

instance : IsTrans String pyStrLe := ⟨fun _ _ _ => lexLe_trans⟩

instance : IsAntisymm String pyStrLe :=
  ⟨fun _ _ h1 h2 => String.ext (lexLe_antisymm h1 h2)⟩

/-- Python's `sorted` yields the same list on any two permutations of the
same input list. -/
theorem pySorted_eq_of_perm {A B : List String} (h : A.Perm B) :
    pySorted A = pySorted B :=
  List.eq_of_perm_of_sorted
    ((List.perm_insertionSort _ A).trans (h.trans (List.perm_insertionSort _ B).symm))
    (List.sorted_insertionSort _ A) (List.sorted_insertionSort _ B)

/-! ## Lemmas about the CPython dict model -/

theorem dictLookup_dictSet_self {β : Type} (k : String) (v : β)
    (c : List (String × β)) : dictLookup k (dictSet k v c) = some v := by
  induction c with
  | nil => simp [dictSet, dictLookup]
  | cons x t ih =>
    obtain ⟨k', v'⟩ := x
    by_cases h : k' = k <;> simp [dictSet, dictLookup, h, ih]

theorem dictLookup_dictSet_ne {β : Type} {k q : String} (h : q ≠ k) (v : β)
    (c : List (String × β)) : dictLookup q (dictSet k v c) = dictLookup q c := by
  induction c with
  | nil => simp [dictSet, dictLookup, Ne.symm h]
  | cons x t ih =>
    obtain ⟨k', v'⟩ := x
    by_cases h2 : k' = k
    · subst h2
      simp [dictSet, dictLookup, Ne.symm h]
    · by_cases h3 : k' = q <;> simp [dictSet, dictLookup, h2, h3, ih, h]

theorem dictSet_fresh {β : Type} {k : String} {c : List (String × β)}
    (h : dictLookup k c = none) (v : β) : dictSet k v c = c ++ [(k, v)] := by
  induction c with
  | nil => simp [dictSet]
  | cons x t ih =>
    obtain ⟨k', v'⟩ := x
    by_cases h2 : k' = k
    · simp [dictLookup, h2] at h
    · simp [dictLookup, h2] at h
      simp [dictSet, h2, ih h]

theorem length_dictSet_le {β : Type} (k : String) (v : β)
    (c : List (String × β)) : (dictSet k v c).length ≤ c.length + 1 := by
  induction c with
  | nil => simp [dictSet]
  | cons x t ih =>
    obtain ⟨k', v'⟩ := x
    by_cases h : k' = k <;> simp [dictSet, h] <;> omega

theorem length_dictSet_of_mem {β : Type} {k : String} {c : List (String × β)}
    (h : (dictLookup k c).isSome) (v : β) :
    (dictSet k v c).length = c.length := by
  induction c with
  | nil => simp [dictLookup] at h
  | cons x t ih =>
    obtain ⟨k', v'⟩ := x
    by_cases h2 : k' = k
    · simp [dictSet, h2]
    · simp [dictLookup, h2] at h
      simp [dictSet, h2, ih h]

theorem length_dictErase_le {β : Type} (k : String) (c : List (String × β)) :
    (dictErase k c).length ≤ c.length := by
  induction c with
  | nil => simp [dictErase]
  | cons x t ih =>
    obtain ⟨k', v'⟩ := x
    by_cases h : k' = k <;> simp [dictErase, h] <;> omega

theorem length_dictErase_of_mem {β : Type} {k : String} {c : List (String × β)}
    (h : (dictLookup k c).isSome) : (dictErase k c).length + 1 = c.length := by
  induction c with
  | nil => simp [dictLookup] at h
  | cons x t ih =>
    obtain ⟨k', v'⟩ := x
    by_cases h2 : k' = k
    · simp [dictErase, h2]
    · simp [dictLookup, h2] at h
      simp [dictErase, h2, ih h]

theorem lookup_isSome_of_mem {β : Type} {y : String × β}
    {c : List (String × β)} (h : y ∈ c) : (dictLookup y.1 c).isSome := by
  induction c with
  | nil => simp at h
  | cons x t ih =>
    obtain ⟨k', v'⟩ := x
    rcases List.mem_cons.mp h with h2 | h2
    · subst h2; simp [dictLookup]
    · by_cases h3 : k' = y.1 <;> simp [dictLookup, h3, ih h2]

/-! ## The `Except` computations agree with the total counterparts -/

theorem except_bind_ok {ε α β : Type} (a : α) (f : α → Except ε β) :
    ((Except.ok a : Except ε α) >>= f) = f a := rfl

theorem except_bind_error {ε α β : Type} (e : ε) (f : α → Except ε β) :
    ((Except.error e : Except ε α) >>= f) = Except.error e := rfl

theorem entryNomePeso_ok {e : SintomaEntry} {p : String × ℚ}
    (h : entryNomePeso e = .ok p) : p = entryNP e := by
  cases e with
  | dict s w =>
    cases s with
    | none => simp [entryNomePeso] at h
    | some n =>
      cases w with
      | none =>
        simp [entryNomePeso] at h
        simp [entryNP, ← h]
      | some pv =>
        cases pv with
        | num q =>
          simp [entryNomePeso] at h
          simp [entryNP, ← h]
        | nonNumeric => simp [entryNomePeso] at h
  | raw v =>
    simp [entryNomePeso] at h
    simp [entryNP, ← h]

theorem entryNomePeso_isOk {e : SintomaEntry} (h : entryWF e = true) :
    entryNomePeso e = .ok (entryNP e) := by
  cases e with
  | dict s w =>
    cases s with
    | none => simp [entryWF] at h
    | some n =>
      cases w with
      | none => simp [entryNomePeso, entryNP]
      | some pv =>
        cases pv with
        | num q => simp [entryNomePeso, entryNP]
        | nonNumeric => simp [entryWF] at h
  | raw v => simp [entryNomePeso, entryNP]

theorem extrair_ok {l : List SintomaEntry} :
    ∀ {acc : List (String × ℚ)} {m : ℚ} {p},
      extrairSintomas acc m l = .ok p → p = extrairT acc m l := by
  induction l with
  | nil =>
    intro acc m p h
    simp [extrairSintomas] at h
    simp [extrairT, ← h]
  | cons e rest ih =>
    intro acc m p h
    cases he : entryNomePeso e with
    | error err => simp [extrairSintomas, he, except_bind_ok, except_bind_error] at h
    | ok np =>
      rw [entryNomePeso_ok he] at he
      simp only [extrairSintomas, he, except_bind_ok, except_bind_error] at h
      exact (ih h).trans rfl

theorem extrair_isOk {l : List SintomaEntry} :
    ∀ {acc : List (String × ℚ)} {m : ℚ}, l.all entryWF = true →
      extrairSintomas acc m l = .ok (extrairT acc m l) := by
  induction l with
  | nil => intro acc m _; simp [extrairSintomas, extrairT]
  | cons e rest ih =>
    intro acc m h
    simp only [List.all_cons, Bool.and_eq_true] at h
    simp only [extrairSintomas, entryNomePeso_isOk h.1, except_bind_ok, except_bind_error, extrairT]
    exact ih h.2

theorem nomeDe_ok {e : SintomaEntry} {n : String} (h : nomeDe e = .ok n) :
    n = (entryNP e).1 := by
  cases e with
  | dict s w =>
    cases s with
    | none => simp [nomeDe] at h
    | some n2 =>
      simp [nomeDe] at h
      cases w with
      | none => simp [entryNP, ← h]
      | some pv => cases pv <;> simp [entryNP, ← h]
  | raw v =>
    simp [nomeDe] at h
    simp [entryNP, ← h]

theorem nomeDe_isOk {e : SintomaEntry} (h : entryWF e = true) :
    nomeDe e = .ok (entryNP e).1 := by
  cases e with
  | dict s w =>
    cases s with
    | none => simp [entryWF] at h
    | some n =>
      cases w with
      | none => simp [nomeDe, entryNP]
      | some pv =>
        cases pv with
        | num q => simp [nomeDe, entryNP]
        | nonNumeric => simp [entryWF] at h
  | raw v => simp [nomeDe, entryNP]

theorem listaNomes_ok {l : List SintomaEntry} :
    ∀ {ns : List String}, listaNomes l = .ok ns → ns = nomesT l := by
  induction l with
  | nil =>
    intro ns h
    simp [listaNomes] at h
    simp [nomesT, ← h]
  | cons e rest ih =>
    intro ns h
    cases he : nomeDe e with
    | error err => simp [listaNomes, he, except_bind_error] at h
    | ok n =>
      simp only [listaNomes, he, except_bind_ok] at h
      cases hr : listaNomes rest with
      | error err => simp [hr, except_bind_error] at h
      | ok ns2 =>
        simp only [hr, except_bind_ok, Except.ok.injEq] at h
        rw [← h, nomeDe_ok he, ih hr]
        simp [nomesT]

theorem listaNomes_isOk {l : List SintomaEntry} (h : l.all entryWF = true) :
    listaNomes l = .ok (nomesT l) := by
  induction l with
  | nil => simp [listaNomes, nomesT]
  | cons e rest ih =>
    simp only [List.all_cons, Bool.and_eq_true] at h
    simp only [listaNomes, nomeDe_isOk h.1, except_bind_ok, ih h.2, nomesT,
      List.map_cons]

theorem calcular_ok {d : Doenca} {sel : List String} {r : Resultado}
    (h : calcular d sel = .ok r) : r = calcularT d sel := by
  cases he : extrairSintomas [] 0 d.sintomas with
  | error err => simp [calcular, he, except_bind_error] at h
  | ok sm =>
    rw [extrair_ok he] at he
    simp only [calcular, he, except_bind_ok, Except.ok.injEq] at h
    rw [← h]
    rfl

theorem calcular_isOk {d : Doenca} (sel : List String)
    (h : DoencaWF d = true) : calcular d sel = .ok (calcularT d sel) := by
  simp only [calcular, extrair_isOk (l := d.sintomas) h, except_bind_ok]
  rfl

theorem verificar_ok {d : Doenca} {sintomas : List String} {b : Bool}
    (h : verificar_condicoes d sintomas = .ok b) : b = verificarT d sintomas := by
  unfold verificar_condicoes at h
  unfold verificarT
  cases hany : d.condicoes.sintomas_obrigatorios.any fun o => decide (o ∉ sintomas) with
  | true =>
    rw [hany] at h
    simp only [if_pos rfl] at h
    simp only [if_pos rfl]
    simpa using h.symm
  | false =>
    rw [hany] at h
    have hfneq : ¬ (false = true) := by simp
    rw [if_neg hfneq] at h
    rw [if_neg hfneq]
    by_cases h2 : 0 < d.condicoes.min_sintomas
    · rw [if_pos h2] at h
      rw [if_pos h2]
      cases hn : listaNomes d.sintomas with
      | error err => rw [hn] at h; simp [except_bind_error] at h
      | ok nomes =>
        rw [hn, except_bind_ok] at h
        rw [listaNomes_ok hn] at h
        simpa using h.symm
    · rw [if_neg h2] at h
      rw [if_neg h2]
      simpa using h.symm

theorem verificar_isOk {d : Doenca} (sintomas : List String)
    (h : DoencaWF d = true) :
    verificar_condicoes d sintomas = .ok (verificarT d sintomas) := by
  unfold verificar_condicoes verificarT
  cases hany : d.condicoes.sintomas_obrigatorios.any fun o => decide (o ∉ sintomas) with
  | true => simp
  | false =>
    have hfneq : ¬ (false = true) := by simp
    rw [if_neg hfneq, if_neg hfneq]
    by_cases h2 : 0 < d.condicoes.min_sintomas
    · rw [if_pos h2, if_pos h2, listaNomes_isOk (l := d.sintomas) h,
        except_bind_ok]
    · rw [if_neg h2, if_neg h2]

theorem coletar_ok {cfg : CONFIGt} {sintomas : List String} {db : List Doenca} :
    ∀ {rs : List ResultDict}, coletar cfg db sintomas = .ok rs →
      rs = coletarT cfg db sintomas := by
  induction db with
  | nil =>
    intro rs h
    simp [coletar] at h
    simp [coletarT, ← h]
  | cons d rest ih =>
    intro rs h
    cases hv : verificar_condicoes d sintomas with
    | error err => simp [coletar, hv, except_bind_error] at h
    | ok b =>
      have hb : b = verificarT d sintomas := verificar_ok hv
      simp only [coletar, hv, except_bind_ok] at h
      cases hbv : verificarT d sintomas with
      | false =>
        rw [hbv] at hb; subst hb
        simp only [Bool.false_eq_true, if_false] at h
        simp [coletarT, List.filterMap_cons, keepD, hbv, ih h]
      | true =>
        rw [hbv] at hb; subst hb
        simp only [if_true] at h
        cases hc : calcular d sintomas with
        | error err => simp [hc, except_bind_error] at h
        | ok r =>
          simp only [hc, except_bind_ok] at h
          cases hcol : coletar cfg rest sintomas with
          | error err => simp [hcol, except_bind_error] at h
          | ok rs2 =>
            simp only [hcol, except_bind_ok] at h
            rw [calcular_ok hc] at h
            by_cases hp : cfg.porcentagemMinima ≤ (calcularT d sintomas).porcentagem
            · rw [if_pos hp] at h
              simp only [Except.ok.injEq] at h
              simp [coletarT, List.filterMap_cons, keepD, hbv, hp, ← h, ih hcol]
            · rw [if_neg hp] at h
              simp only [Except.ok.injEq] at h
              simp [coletarT, List.filterMap_cons, keepD, hbv, hp, ← h, ih hcol]

theorem coletar_isOk {cfg : CONFIGt} {sintomas : List String} {db : List Doenca}
    (h : ∀ d ∈ db, DoencaWF d = true) :
    coletar cfg db sintomas = .ok (coletarT cfg db sintomas) := by
  induction db with
  | nil => simp [coletar, coletarT]
  | cons d rest ih =>
    have hd : DoencaWF d = true := h d (List.mem_cons_self d rest)
    have hrest := ih fun d2 h2 => h d2 (List.mem_cons_of_mem d h2)
    simp only [coletar, verificar_isOk sintomas hd, except_bind_ok]
    cases hvt : verificarT d sintomas with
    | false => simpa [coletarT, List.filterMap_cons, keepD, hvt] using hrest
    | true =>
      simp only [if_true, calcular_isOk sintomas hd, except_bind_ok, hrest,
        except_bind_ok]
      by_cases hp : cfg.porcentagemMinima ≤ (calcularT d sintomas).porcentagem
      · simp [coletarT, List.filterMap_cons, keepD, hvt, hp]
      · simp [coletarT, List.filterMap_cons, keepD, hvt, hp]

/-! ## Characterization of the symptom dict and the matching pass -/

theorem dictLookup_eq_none {β : Type} {k : String} :
    ∀ {c : List (String × β)}, dictLookup k c = none ↔ k ∉ c.map Prod.fst := by
  intro c
  induction c with
  | nil => simp [dictLookup]
  | cons x t ih =>
    obtain ⟨k', v'⟩ := x
    by_cases h : k' = k <;> simp [dictLookup, h, ih, eq_comm (a := k)]

theorem extrairT_snd : ∀ (l : List SintomaEntry) (acc : List (String × ℚ)) (m : ℚ),
    (extrairT acc m l).2 = m + (l.map fun e => (entryNP e).2).sum := by
  intro l
  induction l with
  | nil => intro acc m; simp [extrairT]
  | cons e rest ih =>
    intro acc m
    rw [extrairT, ih]
    simp [List.sum_cons]
    ring

theorem extrairT_fst_nodup :
    ∀ (l : List SintomaEntry) (acc : List (String × ℚ)) (m : ℚ),
      (acc.map Prod.fst ++ nomesT l).Nodup →
      (extrairT acc m l).1 = acc ++ l.map entryNP := by
  intro l
  induction l with
  | nil => intro acc m _; simp [extrairT]
  | cons e rest ih =>
    intro acc m h
    have hfresh : dictLookup (entryNP e).1 acc = none := by
      rw [dictLookup_eq_none]
      intro hmem
      rcases List.nodup_append.mp h with ⟨_, _, hdisj⟩
      exact hdisj hmem (by simp [nomesT])
    rw [extrairT, dictSet_fresh hfresh]
    have hn2 : (((acc ++ [((entryNP e).1, (entryNP e).2)]).map Prod.fst)
        ++ nomesT rest).Nodup := by
      simpa [nomesT, List.append_assoc] using h
    rw [ih _ _ hn2]
    simp [nomesT, List.append_assoc]

theorem mem_dictSet {β : Type} {kv : String × β} {k : String} {v : β} :
    ∀ {c : List (String × β)}, kv ∈ dictSet k v c → kv = (k, v) ∨ kv ∈ c := by
  intro c
  induction c with
  | nil => intro h; simpa [dictSet] using h
  | cons x t ih =>
    obtain ⟨k', v'⟩ := x
    intro h
    by_cases h2 : k' = k
    · rw [dictSet, if_pos h2] at h
      rcases List.mem_cons.mp h with h3 | h3
      · left; rw [h3, h2]
      · right; exact List.mem_cons_of_mem _ h3
    · rw [dictSet, if_neg h2] at h
      rcases List.mem_cons.mp h with h3 | h3
      · right; exact h3 ▸ List.mem_cons_self _ _
      · rcases ih h3 with h4 | h4
        · left; exact h4
        · right; exact List.mem_cons_of_mem _ h4

theorem extrairT_fst_mem :
    ∀ (l : List SintomaEntry) (acc : List (String × ℚ)) (m : ℚ)
      (kv : String × ℚ), kv ∈ (extrairT acc m l).1 →
      kv ∈ acc ∨ ∃ e ∈ l, kv = entryNP e := by
  intro l
  induction l with
  | nil => intro acc m kv h; left; simpa [extrairT] using h
  | cons e rest ih =>
    intro acc m kv h
    rw [extrairT] at h
    rcases ih _ _ _ h with h2 | h2
    · rcases mem_dictSet h2 with h3 | h3
      · right
        exact ⟨e, List.mem_cons_self _ _, h3⟩
      · left; exact h3
    · rcases h2 with ⟨e2, he2, hkv⟩
      right
      exact ⟨e2, List.mem_cons_of_mem _ he2, hkv⟩

theorem separar_bruta (sel : List String) : ∀ (l : List (String × ℚ)),
    (separar sel l).1 =
      ((l.filter fun kv => decide (kv.1 ∈ sel)).map Prod.snd).sum := by
  intro l
  induction l with
  | nil => simp [separar]
  | cons kv t ih =>
    obtain ⟨n, p⟩ := kv
    by_cases h : n ∈ sel <;> simp [separar, List.filter_cons, h, ih]

theorem separar_matched (sel : List String) : ∀ (l : List (String × ℚ)),
    (separar sel l).2.1 =
      (l.filter fun kv => decide (kv.1 ∈ sel)).map Prod.fst := by
  intro l
  induction l with
  | nil => simp [separar]
  | cons kv t ih =>
    obtain ⟨n, p⟩ := kv
    by_cases h : n ∈ sel <;> simp [separar, List.filter_cons, h, ih]

theorem separar_missing (sel : List String) : ∀ (l : List (String × ℚ)),
    (separar sel l).2.2 =
      (l.filter fun kv => decide (kv.1 ∉ sel)).map Prod.fst := by
  intro l
  induction l with
  | nil => simp [separar]
  | cons kv t ih =>
    obtain ⟨n, p⟩ := kv
    by_cases h : n ∈ sel <;> simp [separar, List.filter_cons, h, ih]

theorem separar_fst_mono {q q2 : List String} : ∀ (l : List (String × ℚ)),
    (∀ kv ∈ l, 0 ≤ kv.2) → (∀ s, s ∈ q → s ∈ q2) →
    (separar q l).1 ≤ (separar q2 l).1 := by
  intro l
  induction l with
  | nil => intro _ _; simp [separar]
  | cons kv t ih =>
    intro hpos hsub
    obtain ⟨n, p⟩ := kv
    have hp : (0 : ℚ) ≤ p := hpos (n, p) (List.mem_cons_self _ _)
    have ihp := ih (fun kv h => hpos kv (List.mem_cons_of_mem _ h)) hsub
    by_cases h1 : n ∈ q
    · have h2 : n ∈ q2 := hsub n h1
      simp only [separar, if_pos h1, if_pos h2]
      linarith
    · by_cases h2 : n ∈ q2
      · simp only [separar, if_neg h1, if_pos h2]
        linarith
      · simp only [separar, if_neg h1, if_neg h2]
        exact ihp

/-! ## Stability of the descending sort in `avaliar` -/

instance : IsTotal ResultDict rdesc := ⟨fun a b => le_total b.porcentagem a.porcentagem⟩

instance : IsTrans ResultDict rdesc := ⟨fun _ _ _ h1 h2 => le_trans h2 h1⟩

theorem filter_orderedInsert_porc (c : ℚ) (x : ResultDict) :
    ∀ (l : List ResultDict),
    (List.orderedInsert rdesc x l).filter (fun a => decide (a.porcentagem = c)) =
      if x.porcentagem = c then
        x :: l.filter (fun a => decide (a.porcentagem = c))
      else l.filter (fun a => decide (a.porcentagem = c)) := by
  intro l
  induction l with
  | nil =>
    by_cases hx : x.porcentagem = c <;>
      simp [List.orderedInsert, List.filter, hx]
  | cons y t ih =>
    by_cases hr : rdesc x y
    · rw [List.orderedInsert, if_pos hr]
      by_cases hx : x.porcentagem = c <;> simp [List.filter_cons, hx]
    · rw [List.orderedInsert, if_neg hr]
      by_cases hy : y.porcentagem = c
      · by_cases hx : x.porcentagem = c
        · exact absurd (show rdesc x y by unfold rdesc; rw [hx, hy]) hr
        · simp [List.filter_cons, hy, hx, ih]
      · by_cases hx : x.porcentagem = c <;> simp [List.filter_cons, hy, hx, ih]

theorem filter_insertionSort_porc (c : ℚ) : ∀ (l : List ResultDict),
    (List.insertionSort rdesc l).filter (fun a => decide (a.porcentagem = c)) =
      l.filter (fun a => decide (a.porcentagem = c)) := by
  intro l
  induction l with
  | nil => rfl
  | cons x t ih =>
    rw [List.insertionSort, filter_orderedInsert_porc]
    by_cases hx : x.porcentagem = c <;> simp [List.filter_cons, hx, ih]

theorem aKey_inj {i j : ℕ} (h : aKey i = aKey j) : i = j := by
  have h2 := congrArg (fun s => s.data.length) h
  simpa [aKey] using h2

theorem buildCache_lookup_none : ∀ (n k : ℕ), n ≤ k →
    dictLookup (aKey k) (buildCache n) = none := by
  intro n
  induction n with
  | zero => intro k _; simp [buildCache, dictLookup]
  | succ n ih =>
    intro k hk
    rw [buildCache,
      dictLookup_dictSet_ne (fun h => by have := aKey_inj h; omega)]
    exact ih k (by omega)

theorem buildCache_length : ∀ (n : ℕ), (buildCache n).length = n := by
  intro n
  induction n with
  | zero => rfl
  | succ n ih =>
    rw [buildCache, dictSet_fresh (buildCache_lookup_none n n le_rfl)]
    simp [ih]

/-! ## Lemmas about the DataManager cache -/

theorem minHitsEntry_eq_none {α : Type} :
    ∀ {c : List (String × CacheEntry α)}, minHitsEntry c = none ↔ c = [] := by
  intro c
  cases c with
  | nil => simp [minHitsEntry]
  | cons x t =>
    rw [minHitsEntry]
    cases ht : minHitsEntry t with
    | none => simp
    | some y => by_cases h : y.2.hits < x.2.hits <;> simp [h]

theorem minHitsEntry_mem {α : Type} :
    ∀ {c : List (String × CacheEntry α)} {y : String × CacheEntry α},
      minHitsEntry c = some y →
      y ∈ c ∧ ∀ z ∈ c, y.2.hits ≤ z.2.hits := by
  intro c
  induction c with
  | nil => intro y h; simp [minHitsEntry] at h
  | cons x t ih =>
    intro y h
    rw [minHitsEntry] at h
    cases ht : minHitsEntry t with
    | none =>
      rw [ht] at h
      have hxy : x = y := by simpa using h
      have htnil : t = [] := minHitsEntry_eq_none.mp ht
      subst hxy; subst htnil
      exact ⟨List.mem_cons_self _ _, by simp⟩
    | some y2 =>
      rw [ht] at h
      rcases ih ht with ⟨hmem, hmin⟩
      by_cases hlt : y2.2.hits < x.2.hits
      · simp only [if_pos hlt] at h
        have hy : y2 = y := by simpa using h
        subst hy
        refine ⟨List.mem_cons_of_mem _ hmem, ?_⟩
        intro z hz
        rcases List.mem_cons.mp hz with hz | hz
        · rw [hz]; exact le_of_lt hlt
        · exact hmin z hz
      · simp only [if_neg hlt] at h
        have hy : x = y := by simpa using h
        subst hy
        refine ⟨List.mem_cons_self _ _, ?_⟩
        intro z hz
        rcases List.mem_cons.mp hz with hz | hz
        · rw [hz]
        · exact le_trans (not_lt.mp hlt) (hmin z hz)

theorem minHitsEntry_first {α : Type} :
    ∀ {c : List (String × CacheEntry α)} {y : String × CacheEntry α},
      minHitsEntry c = some y →
      ∃ pre post, c = pre ++ y :: post ∧ ∀ z ∈ pre, y.2.hits < z.2.hits := by
  intro c
  induction c with
  | nil => intro y h; simp [minHitsEntry] at h
  | cons x t ih =>
    intro y h
    rw [minHitsEntry] at h
    cases ht : minHitsEntry t with
    | none =>
      rw [ht] at h
      have hxy : x = y := by simpa using h
      subst hxy
      exact ⟨[], t, rfl, by simp⟩
    | some y2 =>
      rw [ht] at h
      by_cases hlt : y2.2.hits < x.2.hits
      · simp only [if_pos hlt] at h
        have hy : y2 = y := by simpa using h
        subst hy
        rcases ih ht with ⟨pre, post, hsplit, hpre⟩
        refine ⟨x :: pre, post, by rw [hsplit]; rfl, ?_⟩
        intro z hz
        rcases List.mem_cons.mp hz with hz | hz
        · rw [hz]; exact hlt
        · exact hpre z hz
      · simp only [if_neg hlt] at h
        have hy : x = y := by simpa using h
        subst hy
        exact ⟨[], t, rfl, by simp⟩

/-! ## Unfolding lemmas for `avaliar` -/

theorem avaliar_nil (cfg : CONFIGt) (db : List Doenca) (cache : EngineCache) :
    avaliar cfg db cache [] = .ok ([], cache) := by
  simp [avaliar]

theorem avaliar_hit {cfg : CONFIGt} {db : List Doenca} {cache : EngineCache}
    {sintomas : List String} {rs : List ResultDict} (hne : sintomas ≠ [])
    (hh : dictLookup (gerar_cache_key sintomas) cache = some rs) :
    avaliar cfg db cache sintomas = .ok (rs, cache) := by
  simp [avaliar, hne, hh]

theorem avaliar_miss {cfg : CONFIGt} {db : List Doenca} {cache : EngineCache}
    {sintomas : List String} {rs : List ResultDict} (hne : sintomas ≠ [])
    (hm : dictLookup (gerar_cache_key sintomas) cache = none)
    (hcol : coletar cfg db sintomas = .ok rs) :
    avaliar cfg db cache sintomas =
      .ok ((List.insertionSort rdesc rs).take cfg.limiteResultados,
        dictSet (gerar_cache_key sintomas)
          ((List.insertionSort rdesc rs).take cfg.limiteResultados) cache) := by
  simp [avaliar, hne, hm, hcol, except_bind_ok]

theorem avaliar_miss_error {cfg : CONFIGt} {db : List Doenca}
    {cache : EngineCache} {sintomas : List String} {err : PyErr}
    (hne : sintomas ≠ [])
    (hm : dictLookup (gerar_cache_key sintomas) cache = none)
    (hcol : coletar cfg db sintomas = .error err) :
    avaliar cfg db cache sintomas = .error err := by
  simp [avaliar, hne, hm, hcol, except_bind_error]

/-! ## Exchanging `map Prod.fst` with a first-component filter -/

theorem map_fst_filter {β : Type} (p : String → Bool) :
    ∀ (l : List (String × β)),
      ((l.filter fun kv => p kv.1).map Prod.fst) = (l.map Prod.fst).filter p := by
  intro l
  induction l with
  | nil => simp
  | cons kv t ih =>
    obtain ⟨n, v⟩ := kv
    by_cases h : p n = true <;> simp [List.filter_cons, h, ih]

/-! ## The claims -/

/-- C9: for the empty query symptom sequence, `avaliar` returns the empty
sequence immediately, leaves the cache unchanged, and its result does not
depend on the catalog (no catalog scan). -/
theorem C9_empty_query (cfg : CONFIGt) (db db2 : List Doenca)
    (cache : EngineCache) :
    avaliar cfg db cache [] = .ok ([], cache) ∧
    avaliar cfg db cache [] = avaliar cfg db2 cache [] :=
  ⟨avaliar_nil cfg db cache,
    (avaliar_nil cfg db cache).trans (avaliar_nil cfg db2 cache).symm⟩

/-- C7: a condition whose `max_score` is `0` scores percentage `0.0` with no
division, and the scorer is total (returns `.ok`, raising nothing) on every
condition of the data model (well-formed symptom entries) and every query. -/
theorem C7_zero_max_total :
    (∀ (d : Doenca) (q : List String) (r : Resultado),
      calcular d q = .ok r → r.pontuacao_maxima = 0 → r.porcentagem = 0) ∧
    (∀ (d : Doenca) (q : List String), DoencaWF d = true →
      calcular d q = .ok (calcularT d q)) := by
  constructor
  · intro d q r hok hmax
    have hr := calcular_ok hok
    subst hr
    have hm2 : (extrairT [] 0 d.sintomas).2 = 0 := hmax
    have hporc : (calcularT d q).porcentagem =
        if 0 < (extrairT [] 0 d.sintomas).2 then
          pyRound1 ((separar q (extrairT [] 0 d.sintomas).1).1
            / (extrairT [] 0 d.sintomas).2 * 100)
        else 0 := rfl
    rw [hporc, hm2]
    simp
  · intro d q h
    exact calcular_isOk q h

/-- C7 witness: the zero-symptom condition scores `0.0` on query `["x"]`. -/
theorem C7_witness :
    calcular { nome := "Empty" } ["x"] =
      .ok { sintomas_correspondentes := [], sintomas_faltantes := [],
            pontuacao_bruta := 0, pontuacao_maxima := 0, porcentagem := 0 } ∧
    ({ sintomas_correspondentes := [], sintomas_faltantes := [],
       pontuacao_bruta := 0, pontuacao_maxima := 0,
       porcentagem := 0 } : Resultado).porcentagem = 0 :=
  ⟨rfl, C7_zero_max_total.1 { nome := "Empty" } ["x"] _ rfl rfl⟩

/-- C10: symptom-name matching is exact string equality everywhere: for any
two distinct names (in particular case variants), a query holding only the
variant counts the catalog name as missing, contributes `0` to the raw
score, and satisfies neither `sintomas_obrigatorios` nor `min_sintomas`. -/
theorem C10_exact_matching (s t : String) (hne : t ≠ s) :
    calcular { nome := "C", sintomas := [.dict (some t) (some (.num 1))] } [s] =
      .ok { sintomas_correspondentes := [], sintomas_faltantes := [t],
            pontuacao_bruta := 0, pontuacao_maxima := 1, porcentagem := 0 } ∧
    verificar_condicoes
      { nome := "C", condicoes := { sintomas_obrigatorios := [t] } } [s] =
      .ok false ∧
    verificar_condicoes
      { nome := "C", sintomas := [.dict (some t) (some (.num 1))],
        condicoes := { min_sintomas := 1 } } [s] = .ok false := by
  refine ⟨?_, ?_, ?_⟩
  · simp only [calcular, extrairSintomas, entryNomePeso, except_bind_ok,
      dictSet, separar, List.mem_singleton, hne, if_false, zero_add]
    norm_num [pyRound1, rhe]
  · simp [verificar_condicoes, hne]
  · simp [verificar_condicoes, listaNomes, nomeDe, except_bind_ok, hne]

/-- C10 witness: `febre` does not match the catalog name `Febre`. -/
theorem C10_witness :
    calcular { nome := "C",
               sintomas := [.dict (some "Febre") (some (.num 1))] } ["febre"] =
      .ok { sintomas_correspondentes := [], sintomas_faltantes := ["Febre"],
            pontuacao_bruta := 0, pontuacao_maxima := 1, porcentagem := 0 } ∧
    verificar_condicoes
      { nome := "C", condicoes := { sintomas_obrigatorios := ["Febre"] } }
      ["febre"] = .ok false ∧
    verificar_condicoes
      { nome := "C", sintomas := [.dict (some "Febre") (some (.num 1))],
        condicoes := { min_sintomas := 1 } } ["febre"] = .ok false :=
  C10_exact_matching "febre" "Febre" (by decide)

set_option maxRecDepth 8000 in
/-- C6 counterexample: one malformed condition (symptom dict without the
`"s"` key) aborts the whole evaluation — `avaliar` propagates the `KeyError`
instead of skipping the condition, so the well-formed `Flu` contributes no
result either. -/
theorem C6_counterexample :
    avaliar CONFIG [fluDoenca, badDoenca] [] ["fever"] =
      .error (.keyError "s") := by
  rfl

/-- C6 amended: `avaliar` raises no exception only on catalogs whose records
are all well formed; a malformed condition reached during scoring aborts the
whole evaluation (no per-condition skip-and-continue exists). -/
theorem C6_amended {cfg : CONFIGt} {db : List Doenca} {cache : EngineCache}
    {q : List String} (hwf : ∀ d ∈ db, DoencaWF d = true) :
    ∃ out, avaliar cfg db cache q = .ok out := by
  by_cases hq : q = []
  · subst hq
    exact ⟨([], cache), avaliar_nil cfg db cache⟩
  · cases hh : dictLookup (gerar_cache_key q) cache with
    | some rs => exact ⟨(rs, cache), avaliar_hit hq hh⟩
    | none => exact ⟨_, avaliar_miss hq hh (coletar_isOk hwf)⟩

/-- C6 witness: on the all-well-formed catalog `[Flu]` the engine returns
normally. -/
theorem C6_witness : ∃ out, avaliar CONFIG [fluDoenca] [] ["fever"] = .ok out :=
  C6_amended (by decide)

/-- C2 amended: for queries that are permutations of each other (same
elements with the same multiplicities, differing only in order), the cache
key is identical, and evaluating the second after the first hits the same
cache entry: it returns the first call's result list with the cache
unchanged. -/
theorem C2_amended {A B : List String} (hperm : A.Perm B) (cfg : CONFIGt)
    (db : List Doenca) (cache : EngineCache) :
    gerar_cache_key A = gerar_cache_key B ∧
    ∀ r1 c1, avaliar cfg db cache A = .ok (r1, c1) →
      avaliar cfg db c1 B = .ok (r1, c1) := by
  have hkey : gerar_cache_key A = gerar_cache_key B := by
    unfold gerar_cache_key
    rw [show pySorted A = pySorted B from pySorted_eq_of_perm hperm]
  refine ⟨hkey, ?_⟩
  intro r1 c1 hA
  by_cases hA0 : A = []
  · subst hA0
    have hB0 : B = [] := hperm.symm.eq_nil
    subst hB0
    rw [avaliar_nil] at hA
    have h1 : ([] : List ResultDict) = r1 ∧ cache = c1 := by simpa using hA
    rw [← h1.1, ← h1.2]
    exact avaliar_nil cfg db cache
  · have hB0 : B ≠ [] := fun h => hA0 (List.Perm.eq_nil (h ▸ hperm))
    cases hh : dictLookup (gerar_cache_key A) cache with
    | some rs =>
      rw [avaliar_hit hA0 hh] at hA
      have h1 : rs = r1 ∧ cache = c1 := by simpa using hA
      rw [← h1.1, ← h1.2]
      exact avaliar_hit hB0 (by rw [← hkey]; exact hh)
    | none =>
      cases hcol : coletar cfg db A with
      | error err =>
        rw [avaliar_miss_error hA0 hh hcol] at hA
        simp at hA
      | ok rs =>
        rw [avaliar_miss hA0 hh hcol] at hA
        have h1 : (List.insertionSort rdesc rs).take cfg.limiteResultados = r1 ∧
            dictSet (gerar_cache_key A)
              ((List.insertionSort rdesc rs).take cfg.limiteResultados) cache =
              c1 := by simpa using hA
        rw [← h1.1, ← h1.2]
        exact avaliar_hit hB0
          (by rw [← hkey]; exact dictLookup_dictSet_self _ _ _)

/-- C2 witness: the order-swapped queries `["b", "a"]` and `["a", "b"]`
share the cache key and the second call replays the first's entry. -/
theorem C2_witness :
    gerar_cache_key ["b", "a"] = gerar_cache_key ["a", "b"] ∧
    ∀ r1 c1, avaliar CONFIG [] [] ["b", "a"] = .ok (r1, c1) →
      avaliar CONFIG [] c1 ["a", "b"] = .ok (r1, c1) :=
  C2_amended (by decide) CONFIG [] []

set_option maxRecDepth 8000 in
/-- C2 counterexample: `["x"]` and `["x", "x"]` denote the same *set* of
symptoms but hash to different cache keys (the code sorts without
deduplicating), so the second evaluation misses the entry the first one
stored and recomputes, growing the cache instead of hitting it. -/
theorem C2_counterexample :
    (["x"] : List String).toFinset = (["x", "x"] : List String).toFinset ∧
    gerar_cache_key ["x"] ≠ gerar_cache_key ["x", "x"] ∧
    avaliar CONFIG [] [] ["x"] = .ok ([], [(gerar_cache_key ["x"], [])]) ∧
    avaliar CONFIG [] [(gerar_cache_key ["x"], [])] ["x", "x"] =
      .ok ([], [(gerar_cache_key ["x"], []), (gerar_cache_key ["x", "x"], [])]) := by
  exact ⟨by decide, by decide, by rfl, by rfl⟩

/-- C1 amended: for conditions whose symptom names are pairwise distinct
(the scorer collapses repeated names through a dict, so only then do the
per-entry sums of the claim apply), `_calcular` computes `max_score` as the
sum of all entry weights, `raw_score` as the sum of the weights of entries
whose name is in the query, the matched/missing name sequences, and
`percentage = round(100 * raw/max, 1)` when `max > 0`; and the `Flu`
scenario yields raw `2.0`, max `2.5`, percentage `80.0`,
matched `[fever, cough]`, missing `[fatigue]`. -/
theorem C1_amended :
    (∀ (d : Doenca) (q : List String) (r : Resultado),
      calcular d q = .ok r → (nomesT d.sintomas).Nodup →
      r.pontuacao_maxima = maxScoreSpec d ∧
      r.pontuacao_bruta = rawScoreSpec d q ∧
      r.sintomas_correspondentes =
        (nomesT d.sintomas).filter (fun s => decide (s ∈ q)) ∧
      r.sintomas_faltantes =
        (nomesT d.sintomas).filter (fun s => decide (s ∉ q)) ∧
      r.porcentagem =
        (if 0 < maxScoreSpec d then
          pyRound1 (rawScoreSpec d q / maxScoreSpec d * 100) else 0)) ∧
    calcular fluDoenca ["fever", "cough"] =
      .ok { sintomas_correspondentes := ["fever", "cough"],
            sintomas_faltantes := ["fatigue"], pontuacao_bruta := 2,
            pontuacao_maxima := 5/2, porcentagem := 80 } := by
  constructor
  · intro d q r hok hnd
    have hr := calcular_ok hok
    subst hr
    have hdict : (extrairT [] 0 d.sintomas).1 = d.sintomas.map entryNP := by
      simpa using extrairT_fst_nodup d.sintomas [] 0 (by simpa using hnd)
    have hmax : (extrairT [] 0 d.sintomas).2 = maxScoreSpec d := by
      rw [extrairT_snd]
      simp [maxScoreSpec]
    refine ⟨hmax, ?_, ?_, ?_, ?_⟩
    · show (separar q (extrairT [] 0 d.sintomas).1).1 = _
      rw [hdict, separar_bruta]
      rfl
    · show (separar q (extrairT [] 0 d.sintomas).1).2.1 = _
      rw [hdict, separar_matched,
        map_fst_filter (fun x => decide (x ∈ q)) (d.sintomas.map entryNP)]
      rw [List.map_map]
      rfl
    · show (separar q (extrairT [] 0 d.sintomas).1).2.2 = _
      rw [hdict, separar_missing,
        map_fst_filter (fun x => decide (x ∉ q)) (d.sintomas.map entryNP)]
      rw [List.map_map]
      rfl
    · show (if 0 < (extrairT [] 0 d.sintomas).2 then
          pyRound1 ((separar q (extrairT [] 0 d.sintomas).1).1
            / (extrairT [] 0 d.sintomas).2 * 100)
        else 0) = _
      rw [hmax, hdict, separar_bruta]
      rfl
  · simp [calcular, fluDoenca, extrairSintomas, entryNomePeso,
      except_bind_ok, dictSet, separar]
    norm_num [pyRound1, rhe]

/-- C1 counterexample: for a condition listing the symptom name `a` twice
(weights `1.0` then `2.0`) and query `["a"]`, the code's `raw_score` is `2.0`
(last weight once, via the dict) while the claim's per-entry sum is `3.0`,
so the claimed percentage `100.0` disagrees with the computed `66.7`. -/
theorem C1_counterexample :
    calcular dupDoenca ["a"] =
      .ok { sintomas_correspondentes := ["a"], sintomas_faltantes := [],
            pontuacao_bruta := 2, pontuacao_maxima := 3,
            porcentagem := 667/10 } ∧
    rawScoreSpec dupDoenca ["a"] = 3 ∧
    maxScoreSpec dupDoenca = 3 ∧
    (2 : ℚ) ≠ rawScoreSpec dupDoenca ["a"] ∧
    pyRound1 (rawScoreSpec dupDoenca ["a"] / maxScoreSpec dupDoenca * 100) = 100 ∧
    (667/10 : ℚ) ≠ 100 := by
  refine ⟨?_, ?_, ?_, ?_, ?_, ?_⟩
  · simp [calcular, dupDoenca, extrairSintomas, entryNomePeso,
      except_bind_ok, dictSet, separar]
    norm_num [pyRound1, rhe]
  · norm_num [rawScoreSpec, dupDoenca, entryNP]
  · norm_num [maxScoreSpec, dupDoenca, entryNP]
  · norm_num [rawScoreSpec, dupDoenca, entryNP]
  · norm_num [rawScoreSpec, maxScoreSpec, dupDoenca, entryNP, pyRound1, rhe]
  · norm_num

/-- C1 witness: the amended theorem applied to the `Flu` scenario. -/
theorem C1_witness :
    ({ sintomas_correspondentes := ["fever", "cough"],
       sintomas_faltantes := ["fatigue"], pontuacao_bruta := 2,
       pontuacao_maxima := 5/2, porcentagem := 80 } : Resultado).pontuacao_maxima =
        maxScoreSpec fluDoenca ∧
    ({ sintomas_correspondentes := ["fever", "cough"],
       sintomas_faltantes := ["fatigue"], pontuacao_bruta := 2,
       pontuacao_maxima := 5/2, porcentagem := 80 } : Resultado).pontuacao_bruta =
        rawScoreSpec fluDoenca ["fever", "cough"] ∧
    ({ sintomas_correspondentes := ["fever", "cough"],
       sintomas_faltantes := ["fatigue"], pontuacao_bruta := 2,
       pontuacao_maxima := 5/2, porcentagem := 80 } : Resultado).sintomas_correspondentes =
        (nomesT fluDoenca.sintomas).filter
          (fun s => decide (s ∈ ["fever", "cough"])) ∧
    ({ sintomas_correspondentes := ["fever", "cough"],
       sintomas_faltantes := ["fatigue"], pontuacao_bruta := 2,
       pontuacao_maxima := 5/2, porcentagem := 80 } : Resultado).sintomas_faltantes =
        (nomesT fluDoenca.sintomas).filter
          (fun s => decide (s ∉ ["fever", "cough"])) ∧
    ({ sintomas_correspondentes := ["fever", "cough"],
       sintomas_faltantes := ["fatigue"], pontuacao_bruta := 2,
       pontuacao_maxima := 5/2, porcentagem := 80 } : Resultado).porcentagem =
        (if 0 < maxScoreSpec fluDoenca then
          pyRound1 (rawScoreSpec fluDoenca ["fever", "cough"]
            / maxScoreSpec fluDoenca * 100) else 0) :=
  C1_amended.1 fluDoenca ["fever", "cough"] _ C1_amended.2 (by decide)

/-- Every kept result originates from a catalog condition that passed the
eligibility filter and the percentage threshold. -/
theorem coletarT_mem {cfg : CONFIGt} {q : List String} {db : List Doenca}
    {r : ResultDict} (h : r ∈ coletarT cfg db q) :
    ∃ d ∈ db, verificarT d q = true ∧
      cfg.porcentagemMinima ≤ (calcularT d q).porcentagem ∧
      r = to_dict d (calcularT d q) := by
  rcases List.mem_filterMap.mp h with ⟨d, hd, hk⟩
  unfold keepD at hk
  split at hk
  · rename_i hcond
    have hr : to_dict d (calcularT d q) = r := by simpa using hk
    exact ⟨d, hd, by simpa using hcond.1, hcond.2, hr.symm⟩
  · simp at hk

/-- C4: eligibility is an absolute pre-filter: a condition with a required
symptom absent from the query, or with fewer of its own symptom names in the
query than `min_sintomas`, contributes nothing to the freshly computed
output of `avaliar`, regardless of its percentage (its name — unique in the
catalog — appears in no returned entry). -/
theorem C4_eligibility_gate {cfg : CONFIGt} {db : List Doenca}
    {cache : EngineCache} {q : List String} {d : Doenca}
    {res : List ResultDict} {c1 : EngineCache}
    (hd : d ∈ db)
    (huniq : ∀ d2 ∈ db, d2.nome = d.nome → d2 = d)
    (hmiss : dictLookup (gerar_cache_key q) cache = none)
    (hfail : (∃ o ∈ d.condicoes.sintomas_obrigatorios, o ∉ q) ∨
      (0 < d.condicoes.min_sintomas ∧ ∃ nomes,
        listaNomes d.sintomas = .ok nomes ∧
        (nomes.filter fun s => decide (s ∈ q)).length < d.condicoes.min_sintomas))
    (hok : avaliar cfg db cache q = .ok (res, c1)) :
    ∀ r ∈ res, r.doenca ≠ d.nome := by
  have hvf : verificarT d q = false := by
    cases hany : d.condicoes.sintomas_obrigatorios.any fun o => decide (o ∉ q) with
    | true =>
      unfold verificarT
      rw [hany]
      simp
    | false =>
      rcases hfail with ⟨o, ho, hno⟩ | ⟨hmin, nomes, hnomes, hcount⟩
      · exfalso
        have h2 : (d.condicoes.sintomas_obrigatorios.any
            fun o => decide (o ∉ q)) = true :=
          List.any_eq_true.mpr ⟨o, ho, by simpa using hno⟩
        rw [hany] at h2
        exact Bool.false_ne_true h2
      · unfold verificarT
        rw [hany]
        have hfneq : ¬ (false = true) := by simp
        rw [if_neg hfneq, if_pos hmin, ← listaNomes_ok hnomes]
        simpa using hcount
  intro r hr hname
  by_cases hq : q = []
  · subst hq
    rw [avaliar_nil] at hok
    have h2 : ([] : List ResultDict) = res := by
      have := hok
      simp only [Except.ok.injEq, Prod.mk.injEq] at this
      exact this.1
    rw [← h2] at hr
    simp at hr
  · cases hcol : coletar cfg db q with
    | error err =>
      rw [avaliar_miss_error hq hmiss hcol] at hok
      simp at hok
    | ok rs =>
      rw [avaliar_miss hq hmiss hcol] at hok
      have hres : (List.insertionSort rdesc rs).take cfg.limiteResultados = res := by
        simp only [Except.ok.injEq, Prod.mk.injEq] at hok
        exact hok.1
      rw [← hres] at hr
      have hr2 : r ∈ List.insertionSort rdesc rs := List.take_subset _ _ hr
      have hr3 : r ∈ rs := (List.perm_insertionSort rdesc rs).mem_iff.mp hr2
      rw [coletar_ok hcol] at hr3
      rcases coletarT_mem hr3 with ⟨d2, hd2, hv2, _, hrdef⟩
      have hnome : d2.nome = d.nome := by rw [← hname, hrdef]; rfl
      rw [huniq d2 hd2 hnome, hvf] at hv2
      exact Bool.false_ne_true hv2

set_option maxRecDepth 8000 in
/-- C4 witness: the spec's scenario 2 — `Rare` requires symptom `b`; on
query `["a"]` over the catalog `[A, Rare]` the single returned entry is not
`Rare`, which is excluded entirely despite its 100% weighted match. -/
theorem C4_witness : resA.doenca ≠ rareDoenca.nome := by
  have hcol : coletar CONFIG [aDoenca, rareDoenca] ["a"] = .ok [resA] := by
    simp [coletar, verificar_condicoes, calcular, extrairSintomas,
      entryNomePeso, except_bind_ok, except_bind_error, dictSet, separar,
      aDoenca, rareDoenca, to_dict, resA, CONFIG, listaNomes, nomeDe]
    norm_num [pyRound1, pyRound2, rhe]
  have hok := @avaliar_miss CONFIG [aDoenca, rareDoenca] [] ["a"] [resA]
    (by decide) rfl hcol
  have hsort : (List.insertionSort rdesc [resA]).take CONFIG.limiteResultados
      = [resA] := rfl
  exact @C4_eligibility_gate CONFIG [aDoenca, rareDoenca] [] ["a"] rareDoenca
    ((List.insertionSort rdesc [resA]).take CONFIG.limiteResultados)
    (dictSet (gerar_cache_key ["a"])
      ((List.insertionSort rdesc [resA]).take CONFIG.limiteResultados) [])
    (by simp)
    (by decide)
    rfl
    (Or.inl ⟨"b", by decide, by decide⟩)
    hok
    resA
    (by rw [hsort]; exact List.mem_singleton.mpr rfl)

/-- C5: on a cache miss over a well-formed catalog, `avaliar` keeps exactly
the eligible conditions whose percentage clears the threshold (in catalog
order), sorts them by percentage descending with a stable sort (equal
percentages keep catalog order: filtering each percentage class is
invariant), truncates to the result limit, stores that exact sequence in the
cache, and a lookup of the key now returns it. -/
theorem C5_miss_pipeline {cfg : CONFIGt} {db : List Doenca}
    {cache : EngineCache} {q : List String}
    (hne : q ≠ [])
    (hmiss : dictLookup (gerar_cache_key q) cache = none)
    (hwf : ∀ d ∈ db, DoencaWF d = true) :
    avaliar cfg db cache q =
      .ok ((List.insertionSort rdesc (coletarT cfg db q)).take cfg.limiteResultados,
        dictSet (gerar_cache_key q)
          ((List.insertionSort rdesc (coletarT cfg db q)).take cfg.limiteResultados)
          cache) ∧
    coletarT cfg db q = db.filterMap (keepD cfg q) ∧
    List.Sorted rdesc (List.insertionSort rdesc (coletarT cfg db q)) ∧
    (∀ c : ℚ,
      (List.insertionSort rdesc (coletarT cfg db q)).filter
          (fun a => decide (a.porcentagem = c)) =
        (coletarT cfg db q).filter (fun a => decide (a.porcentagem = c))) ∧
    ((List.insertionSort rdesc (coletarT cfg db q)).take
        cfg.limiteResultados).length ≤ cfg.limiteResultados ∧
    dictLookup (gerar_cache_key q)
      (dictSet (gerar_cache_key q)
        ((List.insertionSort rdesc (coletarT cfg db q)).take cfg.limiteResultados)
        cache) =
      some ((List.insertionSort rdesc (coletarT cfg db q)).take
        cfg.limiteResultados) :=
  ⟨avaliar_miss hne hmiss (coletar_isOk hwf), rfl,
    List.sorted_insertionSort rdesc _,
    fun c => filter_insertionSort_porc c _,
    List.length_take_le _ _,
    dictLookup_dictSet_self _ _ _⟩

set_option maxRecDepth 8000 in
/-- C5 witness: the pipeline on the one-condition catalog `[Flu]` with query
`["fever", "cough"]` from the empty cache. -/
theorem C5_witness :
    avaliar CONFIG [fluDoenca] [] ["fever", "cough"] =
      .ok ((List.insertionSort rdesc
          (coletarT CONFIG [fluDoenca] ["fever", "cough"])).take
          CONFIG.limiteResultados,
        dictSet (gerar_cache_key ["fever", "cough"])
          ((List.insertionSort rdesc
            (coletarT CONFIG [fluDoenca] ["fever", "cough"])).take
            CONFIG.limiteResultados)
          []) :=
  (@C5_miss_pipeline CONFIG [fluDoenca] [] ["fever", "cough"]
    (by decide) rfl (by decide)).1

/-- The computed percentage is monotone in query membership: every query
that contains at least the members of another scores at least as high, for
conditions with positive weights. -/
theorem calcularT_porc_mono {d : Doenca} {qa qb : List String}
    (hpos : ∀ e ∈ d.sintomas, 0 < (entryNP e).2)
    (hsub : ∀ s, s ∈ qa → s ∈ qb) :
    (calcularT d qa).porcentagem ≤ (calcularT d qb).porcentagem := by
  have hdictpos : ∀ kv ∈ (extrairT [] 0 d.sintomas).1, (0 : ℚ) ≤ kv.2 := by
    intro kv hkv
    rcases extrairT_fst_mem d.sintomas [] 0 kv hkv with h | ⟨e, he, hkve⟩
    · simp at h
    · rw [hkve]
      exact le_of_lt (hpos e he)
  have hb := separar_fst_mono (extrairT [] 0 d.sintomas).1 hdictpos hsub
  have hporc : ∀ (qq : List String), (calcularT d qq).porcentagem =
      if 0 < (extrairT [] 0 d.sintomas).2 then
        pyRound1 ((separar qq (extrairT [] 0 d.sintomas).1).1
          / (extrairT [] 0 d.sintomas).2 * 100)
      else 0 := fun _ => rfl
  rw [hporc qa, hporc qb]
  by_cases hm : 0 < (extrairT [] 0 d.sintomas).2
  · rw [if_pos hm, if_pos hm]
    apply pyRound1_mono
    gcongr
  · rw [if_neg hm, if_neg hm]

/-- C8: for a condition with positive symptom weights, adding to the query
one of the condition's previously missing symptom names never decreases its
percentage, and removing a matched symptom name never increases it. -/
theorem C8_monotonicity {d : Doenca} {q : List String} {n : String}
    {r r2 r3 : Resultado}
    (hpos : ∀ e ∈ d.sintomas, 0 < (entryNP e).2)
    (hok : calcular d q = .ok r) :
    (calcular d (q ++ [n]) = .ok r2 → n ∈ r.sintomas_faltantes →
      r.porcentagem ≤ r2.porcentagem) ∧
    (calcular d (q.filter fun s => decide (s ≠ n)) = .ok r3 →
      n ∈ r.sintomas_correspondentes → r3.porcentagem ≤ r.porcentagem) := by
  have hr := calcular_ok hok
  subst hr
  constructor
  · intro hok2 _
    rw [calcular_ok hok2]
    exact calcularT_porc_mono hpos fun s hs => List.mem_append_left _ hs
  · intro hok3 _
    rw [calcular_ok hok3]
    exact calcularT_porc_mono hpos fun s hs => List.mem_of_mem_filter hs

/-- C8 witness: for `Flu`, adding the missing `fatigue` to
`["fever", "cough"]` raises the percentage from `80` to `100`, and removing
the matched `fever` lowers it from `80` to `40`. -/
theorem C8_witness :
    recFlu80.porcentagem ≤ recFlu100.porcentagem ∧
    recFlu40.porcentagem ≤ recFlu80.porcentagem := by
  have hpos : ∀ e ∈ fluDoenca.sintomas, 0 < (entryNP e).2 := by
    norm_num [fluDoenca, entryNP]
  have hok : calcular fluDoenca ["fever", "cough"] = .ok recFlu80 := by
    simp [calcular, fluDoenca, extrairSintomas, entryNomePeso, except_bind_ok,
      dictSet, separar, recFlu80]
    norm_num [pyRound1, rhe]
  constructor
  · refine (@C8_monotonicity fluDoenca ["fever", "cough"] "fatigue"
      recFlu80 recFlu100 recFlu80 hpos hok).1 ?_ (by decide)
    simp [calcular, fluDoenca, extrairSintomas, entryNomePeso, except_bind_ok,
      dictSet, separar, recFlu100]
    norm_num [pyRound1, rhe]
  · refine (@C8_monotonicity fluDoenca ["fever", "cough"] "fever"
      recFlu80 recFlu80 recFlu40 hpos hok).2 ?_ (by decide)
    simp [calcular, fluDoenca, extrairSintomas, entryNomePeso, except_bind_ok,
      dictSet, separar, recFlu40]
    norm_num [pyRound1, rhe]

/-- C3 counterexample: the engine's result cache (`self.cache`, the plain
dict `avaliar` stores into with `dictSet`) has no bound at all: after 1000
stores under distinct keys it is at the configured `CACHE_MAX_SIZE`, and the
next store — at capacity — evicts nothing and leaves 1001 entries. -/
theorem C3_counterexample :
    (buildCache 1000).length = CONFIG.cacheMaxSize ∧
    buildCache 1001 = dictSet (aKey 1000) [] (buildCache 1000) ∧
    (buildCache 1001).length = 1001 ∧
    ¬ ((buildCache 1001).length ≤ CONFIG.cacheMaxSize) := by
  refine ⟨?_, rfl, buildCache_length 1001, ?_⟩
  · rw [buildCache_length 1000]
    rfl
  · rw [buildCache_length 1001]
    decide

/-- C3 amended: the bounded, hit-count-evicting cache is the DataManager's
file-content cache: for positive capacity `N`, `_save_to_cache` preserves
`size ≤ N`, `_get_from_cache` never grows the cache and increments the hit
count of a fresh looked-up entry, and a save at capacity evicts exactly the
first entry (in insertion order) whose `hits` is minimal. -/
theorem C3_amended {α : Type} {N : ℕ} {ttl now : ℚ} {k : String} {d0 : α}
    {cache : List (String × CacheEntry α)}
    (hN : 1 ≤ N) (hlen : cache.length ≤ N) :
    (save_to_cache N k d0 now cache).length ≤ N ∧
    (get_from_cache ttl k now cache).2.length ≤ cache.length ∧
    (∀ e : CacheEntry α, dictLookup k cache = some e →
      now - e.timestamp < ttl →
      get_from_cache ttl k now cache =
        (some e.data, dictSet k { e with hits := e.hits + 1 } cache) ∧
      dictLookup k (get_from_cache ttl k now cache).2 =
        some { e with hits := e.hits + 1 }) ∧
    (N ≤ cache.length → ∃ y, minHitsEntry cache = some y ∧ y ∈ cache ∧
      (∀ z ∈ cache, y.2.hits ≤ z.2.hits) ∧
      (∃ pre post, cache = pre ++ y :: post ∧
        ∀ z ∈ pre, y.2.hits < z.2.hits) ∧
      save_to_cache N k d0 now cache =
        dictSet k ⟨d0, now, 1⟩ (dictErase y.1 cache)) := by
  refine ⟨?_, ?_, ?_, ?_⟩
  · unfold save_to_cache
    by_cases hcap : N ≤ cache.length
    · rw [if_pos hcap]
      have hne : cache ≠ [] := by
        intro h0
        rw [h0] at hcap
        simp at hcap
        omega
      cases hmin : minHitsEntry cache with
      | none => exact absurd (minHitsEntry_eq_none.mp hmin) hne
      | some y =>
        have hymem := (minHitsEntry_mem hmin).1
        have hsome : (dictLookup y.1 cache).isSome := lookup_isSome_of_mem hymem
        have hlen2 := length_dictErase_of_mem hsome
        calc (dictSet k ⟨d0, now, 1⟩ (dictErase y.1 cache)).length
            ≤ (dictErase y.1 cache).length + 1 := length_dictSet_le _ _ _
          _ = cache.length := hlen2
          _ ≤ N := hlen
    · rw [if_neg hcap]
      calc (dictSet k ⟨d0, now, 1⟩ cache).length
          ≤ cache.length + 1 := length_dictSet_le _ _ _
        _ ≤ N := by omega
  · unfold get_from_cache
    cases hl : dictLookup k cache with
    | none => simp
    | some e =>
      by_cases hfresh : now - e.timestamp < ttl
      · simp only [if_pos hfresh]
        have := length_dictSet_of_mem (k := k) (c := cache) (by simp [hl])
          { e with hits := e.hits + 1 }
        simpa using le_of_eq this
      · simp only [if_neg hfresh]
        simpa using length_dictErase_le k cache
  · intro e hl hfresh
    constructor
    · unfold get_from_cache
      simp only [hl, if_pos hfresh]
    · unfold get_from_cache
      simp only [hl, if_pos hfresh]
      exact dictLookup_dictSet_self _ _ _
  · intro hcap
    have hne : cache ≠ [] := by
      intro h0
      rw [h0] at hcap
      simp at hcap
      omega
    cases hmin : minHitsEntry cache with
    | none => exact absurd (minHitsEntry_eq_none.mp hmin) hne
    | some y =>
      rcases minHitsEntry_mem hmin with ⟨hymem, hymin⟩
      rcases minHitsEntry_first hmin with ⟨pre, post, hsplit, hpre⟩
      refine ⟨y, rfl, hymem, hymin, ⟨pre, post, hsplit, hpre⟩, ?_⟩
      unfold save_to_cache
      rw [if_pos hcap]
      simp only [hmin]

/-- C3 witness: at capacity `N = 1` with the single entry `k0`, a fresh get
of `k0` increments its hit count, and saving `k1` evicts `k0` and keeps the
size at `1`. -/
theorem C3_witness :
    (save_to_cache 1 "k1" (7 : ℕ) 10 dmCache0).length ≤ 1 ∧
    (get_from_cache 300 "k0" 10 dmCache0).2.length ≤ dmCache0.length ∧
    (∀ e : CacheEntry ℕ, dictLookup "k0" dmCache0 = some e →
      10 - e.timestamp < 300 →
      get_from_cache 300 "k0" 10 dmCache0 =
        (some e.data, dictSet "k0" { e with hits := e.hits + 1 } dmCache0) ∧
      dictLookup "k0" (get_from_cache 300 "k0" 10 dmCache0).2 =
        some { e with hits := e.hits + 1 }) ∧
    (1 ≤ dmCache0.length → ∃ y, minHitsEntry dmCache0 = some y ∧
      y ∈ dmCache0 ∧
      (∀ z ∈ dmCache0, y.2.hits ≤ z.2.hits) ∧
      (∃ pre post, dmCache0 = pre ++ y :: post ∧
        ∀ z ∈ pre, y.2.hits < z.2.hits) ∧
      save_to_cache 1 "k1" (7 : ℕ) 10 dmCache0 =
        dictSet "k1" ⟨7, 10, 1⟩ (dictErase y.1 dmCache0)) := by
  have h1 := @C3_amended ℕ 1 300 10 "k1" 7 dmCache0 (by decide) (by decide)
  have h2 := @C3_amended ℕ 1 300 10 "k0" 7 dmCache0 (by decide) (by decide)
  exact ⟨h1.1, h2.2.1, h2.2.2.1, h1.2.2.2⟩
